import Mathlib

/-!
Verification development for the sales-dashboard repository.

The repository has two parts: an API route that flattens a spreadsheet range
into header-to-value records, and a dashboard page
whose logic consists of
(1) a week-range generator for a given "Month Year" string,
(2) a row normalizer that groups valid raw rows into per-date aggregates and
    per-salesperson revenue totals, and
(3) a filter pipeline combining a time-range mode with month/week selections.

This file gives a shallow embedding of that logic and proves the claimed
properties about it.  Calendar dates are modelled by proleptic-Gregorian day
numbers (day 0 = 0001-01-01), JavaScript numbers by rationals, and the dayjs
library by either an abstract parsing environment (JsEnv) or, where concrete
date arithmetic matters, by explicit day-number computations.  Invalid dayjs
values (NaN timestamps) are modelled as Option.none, with comparison
operators returning false on none, as dayjs does.
-/

namespace Dashboard

/-- A calendar date: year, month (1-12), day (1-based). -/
structure SimpleDate where
  year : Nat
  month : Nat
  day : Nat
deriving DecidableEq, Repr

/-- Gregorian leap-year test. -/
def isLeap (y : Nat) : Bool := (y % 4 == 0 && y % 100 != 0) || (y % 400 == 0)

/-- Number of days in a given month of a given year. -/
def daysInMonth (y m : Nat) : Nat :=
  if m = 2 then (if isLeap y then 29 else 28)
  else if m = 4 ∨ m = 6 ∨ m = 9 ∨ m = 11 then 30
  else 31

/-- Days from 0001-01-01 up to January 1st of year y (proleptic Gregorian). -/
def daysBeforeYear (y : Nat) : Nat :=
  365 * (y - 1) + (y - 1) / 4 + (y - 1) / 400 - (y - 1) / 100

/-- Days from January 1st of year y up to the first day of month m. -/
def daysBeforeMonth (y m : Nat) : Nat :=
  (List.range (m - 1)).foldl (fun acc i => acc + daysInMonth y (i + 1)) 0

/-- Day number of a date: days since 0001-01-01 (which is day 0). -/
def dayNumber (d : SimpleDate) : Nat :=
  daysBeforeYear d.year + daysBeforeMonth d.year d.month + (d.day - 1)

/-- Day of week of a day number, with Sunday = 0 (dayjs default locale
convention).  Day 0 (0001-01-01) is a Monday. -/
def dayOfWeek (n : Nat) : Nat := (n + 1) % 7

/-- The day number of the Saturday ending the week of day n: models the dayjs
operation endOf week (default locale: weeks run Sunday to Saturday), at day
granularity. -/
def endOfWeek (n : Nat) : Nat := n + (6 - dayOfWeek n)

/-- English month names, as produced by the dayjs MMMM format token. -/
def monthNames : List String :=
  ["January", "February", "March", "April", "May", "June",
   "July", "August", "September", "October", "November", "December"]

/-- Full month name of month number m (1-12). -/
def monthName (m : Nat) : String := monthNames.getD (m - 1) "Unknown"

/-- Month number from a full English month name. -/
def monthFromName (s : String) : Option Nat := (monthNames.indexOf? s).map (· + 1)

/-- Split a string at spaces; models the JavaScript String.split call used on
the "Month Year" string. -/
def words (s : String) : List String := (s.data.splitOn ' ').map (fun l => String.mk l)

/-- Digits of a decimal numeral, or none when some character is not a digit. -/
def natFromDigits : List Char → Option Nat
  | [] => some 0
  | c :: cs =>
    if c.toNat < 48 ∨ 57 < c.toNat then none
    else (natFromDigits cs).map (fun n => n + (c.toNat - 48) * 10 ^ cs.length)

/-- Parse a nonempty all-digit string as a natural number. -/
def parseNatStr (s : String) : Option Nat :=
  match s.data with
  | [] => none
  | l => natFromDigits l

/-- Modelled from the dayjs call in getWeeksOfMonth: parsing the free-text
date built from a "Month Year" string succeeds exactly when the first word is
a full English month name and the second a 4-digit year numeral; on success
it yields the month number and the year. -/
def parseMonthYear (s : String) : Option (Nat × Nat) :=
  match words s with
  | mn :: ys :: _ =>
    match monthFromName mn, parseNatStr ys with
    | some m, some y => if 1000 ≤ y ∧ y ≤ 9999 then some (m, y) else none
    | _, _ => none
  | _ => none

/-- A week-aligned segment of a month, inclusive on both ends.  The source
stores the two bounds as YYYY-MM-DD strings; the embedding identifies a
date string with its day number. -/
structure WeekRange where
  start : Nat
  stop : Nat
deriving DecidableEq, Repr

/-- The while loop of getWeeksOfMonth: starting from day current, keep
emitting ranges from current to the end of its week (clamped to the end of
the month) until the month is exhausted.  Each iteration moves current past
its range's end, so the loop runs at most endOfMonth + 1 - current times;
that bound is passed as structural fuel (the call site passes exactly it,
and weeksGo_spec below shows the loop finishes before exhausting it). -/
def weeksGo : Nat → Nat → Nat → List WeekRange
  | 0, _, _ => []
  | fuel + 1, endOfMonth, current =>
    if current ≤ endOfMonth then
      let weekEnd0 := endOfWeek current
      let weekEnd := if endOfMonth < weekEnd0 then endOfMonth else weekEnd0
      ⟨current, weekEnd⟩ :: weeksGo fuel endOfMonth (weekEnd + 1)
    else []

/-- Generate all week ranges inside a given month (e.g. "April 2024").
When the month-year string does not parse, dayjs yields an invalid date,
every comparison in the loop guard is false, and the loop body never runs:
the result is the empty list. -/
def getWeeksOfMonth (monthYear : String) : List WeekRange :=
  match parseMonthYear monthYear with
  | none => []
  | some (m, y) =>
    let startOfMonth := dayNumber ⟨y, m, 1⟩
    let endOfMonth := startOfMonth + (daysInMonth y m - 1)
    weeksGo (endOfMonth + 1 - startOfMonth) endOfMonth startOfMonth

/-- One raw row from the sheet; each field is absent when its column is
missing from the row. -/
structure RawRow where
  Date : Option String
  Sales : Option String
  SalesPerson : Option String
  Client : Option String
  Revenue : Option String
  State : Option String
deriving DecidableEq, Repr

/-- JavaScript truthiness of an optional string: undefined and the empty
string are falsy, every other string is truthy. -/
def truthy : Option String → Bool
  | none => false
  | some s => !(s == "")

/-- The validRows predicate: r.Date && r.Revenue. -/
def validRow (r : RawRow) : Bool := truthy r.Date && truthy r.Revenue

/-- The ambient JavaScript semantics the page relies on: dayjs free-text date
parsing (none = invalid date) and Number coercion of a string (none = NaN).
The aggregation logic is proved for every such environment. -/
structure JsEnv where
  parseDate : String → Option SimpleDate
  parseNum : String → Option Rat

/-- Number(s) followed by the or-zero fallback: NaN becomes 0. -/
def numOr0 (env : JsEnv) (s : String) : Rat := (env.parseNum s).getD 0

/-- Zero-padded 2-digit numeral. -/
def pad2 (n : Nat) : String := if n < 10 then "0" ++ toString n else toString n

/-- Zero-padded 4-digit numeral. -/
def pad4 (n : Nat) : String :=
  if n < 10 then "000" ++ toString n
  else if n < 100 then "00" ++ toString n
  else if n < 1000 then "0" ++ toString n
  else toString n

/-- The dayjs YYYY-MM-DD format of a date. -/
def formatYMD (d : SimpleDate) : String :=
  pad4 d.year ++ "-" ++ pad2 d.month ++ "-" ++ pad2 d.day

/-- The (Date, Month, Year) triple a raw date string is bucketed under:
the YYYY-MM-DD, MMMM and YYYY formats of the parsed date when it is valid,
and the literal "Unknown" three times otherwise. -/
def bucketKey (env : JsEnv) (dateStr : String) : String × String × String :=
  match env.parseDate dateStr with
  | some d => (formatYMD d, monthName d.month, pad4 d.year)
  | none => ("Unknown", "Unknown", "Unknown")

/-- One per-date aggregate. -/
structure AggregatedRow where
  Date : String
  SalesCount : Nat
  Revenue : Rat
  Clients : List String
  Month : String
  Year : String
deriving DecidableEq, Repr

/-- The three per-row mutations of a daily bucket: increment SalesCount, add
the coerced revenue, and append the client unless it is falsy or already
recorded for that date. -/
def updateAgg (a : AggregatedRow) (rev : Rat) (client : Option String) : AggregatedRow :=
  { a with
    SalesCount := a.SalesCount + 1
    Revenue := a.Revenue + rev
    Clients :=
      match client with
      | none => a.Clients
      | some c =>
        if c = "" then a.Clients
        else if a.Clients.contains c then a.Clients
        else a.Clients ++ [c] }

/-- Process one valid row into the daily map, modelled as an association list
in insertion order (as a JavaScript object with string keys is): update the
existing bucket for the row's date key, or append a fresh one. -/
def applyRow (env : JsEnv) (row : RawRow) (m : List AggregatedRow) : List AggregatedRow :=
  let k := bucketKey env (row.Date.getD "")
  let rev := numOr0 env (row.Revenue.getD "")
  if m.any (fun a => a.Date == k.1) then
    m.map (fun a => if a.Date == k.1 then updateAgg a rev row.Client else a)
  else
    m ++ [updateAgg ⟨k.1, 0, 0, [], k.2.1, k.2.2⟩ rev row.Client]

/-- Process one valid row into the person map: add the coerced revenue to the
salesperson's total (the name falls back to "Unknown" when falsy). -/
def applyPerson (env : JsEnv) (row : RawRow) (pm : List (String × Rat)) : List (String × Rat) :=
  let person := if truthy row.SalesPerson then row.SalesPerson.getD "" else "Unknown"
  let rev := numOr0 env (row.Revenue.getD "")
  if pm.any (fun p => p.1 == person) then
    pm.map (fun p => if p.1 == person then (p.1, p.2 + rev) else p)
  else
    pm ++ [(person, rev)]

/-- Strict lexicographic comparison of character lists by code point. -/
def strLtAux : List Char → List Char → Bool
  | [], [] => false
  | [], _ :: _ => true
  | _ :: _, [] => false
  | a :: as, b :: bs =>
    if a.toNat < b.toNat then true
    else if b.toNat < a.toNat then false
    else strLtAux as bs

/-- String order used for the Date sort; models localeCompare on the
YYYY-MM-DD / "Unknown" keys, which is plain lexicographic order there. -/
def strLe (a b : String) : Bool := !(strLtAux b.data a.data)

/-- The aggregation core of fetchData: filter to valid rows, fold them into
the daily map and the person map, sort the daily aggregates by date string,
and return both.  (Array.prototype.sort with a localeCompare comparator is a
sort by strLe; the Date keys are pairwise distinct, so any sorted
rearrangement is the same list.) -/
def normalize (env : JsEnv) (rows : List RawRow) : List AggregatedRow × List (String × Rat) :=
  let validRows := rows.filter validRow
  let dailyMap := validRows.foldl (fun m r => applyRow env r m) []
  let personArr := validRows.foldl (fun pm r => applyPerson env r pm) []
  (dailyMap.insertionSort (fun a b => strLe a.Date b.Date = true), personArr)

/-- The time-range mode (the filter state variable of the page). -/
inductive Mode
  | daily
  | weekly
  | monthly
  | all
deriving DecidableEq, Repr

/-- The UI filter parameters consumed by the filter effect. -/
structure FilterState where
  mode : Mode
  selectedMonth : String
  selectedWeek : Option WeekRange
  selectedYear : String

/-- Milliseconds per day; dayjs timestamps are in milliseconds. -/
def msPerDay : Int := 86400000

/-- Timestamp (milliseconds, local midnight) of an aggregate's date string,
none when dayjs fails to parse it (NaN). -/
def dateTs (env : JsEnv) (s : String) : Option Int :=
  (env.parseDate s).map (fun d => (dayNumber d : Int) * msPerDay)

/-- dayjs isBefore: false whenever either timestamp is NaN. -/
def jsIsBefore (a b : Option Int) : Bool :=
  match a, b with
  | some x, some y => decide (x < y)
  | _, _ => false

/-- dayjs isAfter: false whenever either timestamp is NaN. -/
def jsIsAfter (a b : Option Int) : Bool :=
  match a, b with
  | some x, some y => decide (y < x)
  | _, _ => false

/-- dayjs isSame at day granularity: false on NaN. -/
def jsIsSameDay (a : Option Int) (now : Int) : Bool :=
  match a with
  | some x => decide (x.fdiv msPerDay = now.fdiv msPerDay)
  | none => false

/-- The filter effect of the page: the mode filter followed by the month
filter (the month filter is skipped in weekly mode). -/
def filterData (env : JsEnv) (now : Int) (fs : FilterState) (data : List AggregatedRow) :
    List AggregatedRow :=
  let filtered :=
    match fs.mode with
    | Mode.daily => data.filter (fun item => jsIsSameDay (dateTs env item.Date) now)
    | Mode.weekly =>
      match fs.selectedWeek with
      | some w =>
        if fs.selectedMonth ≠ "all" then
          data.filter (fun item =>
            !(jsIsBefore (dateTs env item.Date) (some ((w.start : Int) * msPerDay))) &&
            !(jsIsAfter (dateTs env item.Date) (some ((w.stop : Int) * msPerDay))))
        else
          data.filter (fun item =>
            jsIsAfter (dateTs env item.Date) (some (now - 7 * msPerDay)))
      | none =>
        data.filter (fun item =>
          jsIsAfter (dateTs env item.Date) (some (now - 7 * msPerDay)))
    | Mode.monthly =>
      data.filter (fun item =>
        jsIsAfter (dateTs env item.Date) (some (now - 30 * msPerDay)))
    | Mode.all => data
  if fs.selectedMonth ≠ "all" ∧ fs.mode ≠ Mode.weekly then
    filtered.filter (fun r => r.Month ++ " " ++ r.Year == fs.selectedMonth)
  else filtered

/-- The data each rendered view reads: the filtered aggregates, the three
summary statistics derived from them, and the person series, which is read
from the unfiltered person totals. -/
structure DashboardView where
  filteredData : List AggregatedRow
  totalSales : Nat
  totalRevenue : Rat
  totalClients : Nat
  salesByPerson : List (String × Rat)
deriving Repr

/-- Normalize the fetched rows, apply the filter state, and assemble the
rendered view. -/
def renderView (env : JsEnv) (now : Int) (rows : List RawRow) (fs : FilterState) :
    DashboardView :=
  let nd := normalize env rows
  let filtered := filterData env now fs nd.1
  { filteredData := filtered
    totalSales := (filtered.map (fun r => r.SalesCount)).sum
    totalRevenue := (filtered.map (fun r => r.Revenue)).sum
    totalClients := (filtered.map (fun r => r.Clients.length)).sum
    salesByPerson := nd.2 }

/-- Spec-side predicate, following the claim's words: the date string parses
and the resulting day lies in the week's inclusive start-to-end range. -/
def inWeekSpec (env : JsEnv) (w : WeekRange) (s : String) : Bool :=
  match env.parseDate s with
  | some d => decide (w.start ≤ dayNumber d) && decide (dayNumber d ≤ w.stop)
  | none => false

/-- The trailing-window predicate actually computed by the weekly and monthly
fallback branches: the date string parses and its timestamp is strictly
after now minus the window (no upper bound). -/
def afterWindow (env : JsEnv) (now : Int) (days : Int) (s : String) : Bool :=
  match dateTs env s with
  | some t => decide (now - days * msPerDay < t)
  | none => false

/-- The shape dayjs guarantees for every successfully parsed date: month in
1..12, day in 1..31, year formattable as 4 digits. -/
def WellFormedDate (d : SimpleDate) : Prop :=
  1 ≤ d.month ∧ d.month ≤ 12 ∧ d.year ≤ 9999 ∧ 1 ≤ d.day ∧ d.day ≤ 31

/-- A concrete environment for the closed examples below: dayjs and Number
restricted to the handful of literals those examples use. -/
def cEnv : JsEnv where
  parseDate s :=
    if s = "2024-04-01" then some ⟨2024, 4, 1⟩
    else if s = "2024-04-02" then some ⟨2024, 4, 2⟩
    else if s = "2025-01-15" then some ⟨2025, 1, 15⟩
    else none
  parseNum s :=
    if s = "0" then some 0
    else if s = "1" then some 1
    else if s = "50" then some 50
    else if s = "75" then some 75
    else if s = "100" then some 100
    else none

/-- An environment in which no string parses as a date and every numeral is
NaN; used to exercise the invalid-date paths. -/
def nullEnv : JsEnv where
  parseDate _ := none
  parseNum _ := none

/-- The aggregate the "Unknown" bucket produces, used as concrete filter
input. -/
def unknownAgg : AggregatedRow :=
  { Date := "Unknown", SalesCount := 1, Revenue := 50, Clients := []
    Month := "Unknown", Year := "Unknown" }

/-- Default week range used with getD / headD / getLastD. -/
def dfltRange : WeekRange := ⟨0, 0⟩

/-- What the week-range loop produces over the inclusive day interval from c
to e: a nonempty chain of ranges that starts at c, ends at e, tiles the
interval with no gaps or overlaps, and in which every range but the last
ends exactly at the end of its week. -/
def WeeksChain (l : List WeekRange) (c e : Nat) : Prop :=
  l ≠ []
  ∧ (∀ r ∈ l, c ≤ r.start ∧ r.start ≤ r.stop ∧ r.stop ≤ e)
  ∧ List.Pairwise (fun r1 r2 => r1.stop < r2.start) l
  ∧ (∀ d, (c ≤ d ∧ d ≤ e) ↔ ∃ r ∈ l, r.start ≤ d ∧ d ≤ r.stop)
  ∧ (l.headD dfltRange).start = c
  ∧ (l.getLastD dfltRange).stop = e
  ∧ (∀ i, i + 1 < l.length →
      (l.getD i dfltRange).stop = endOfWeek ((l.getD i dfltRange).start)
      ∧ (l.getD (i + 1) dfltRange).start = (l.getD i dfltRange).stop + 1)

/-- Two rows with the same client on different dates; exercises the per-date
scope of client deduplication. -/
def rowsC6 : List RawRow :=
  [⟨some "2024-04-01", none, some "P", some "A", some "100", none⟩,
   ⟨some "2024-04-02", none, some "Q", some "A", some "75", none⟩]

/-- A row whose Revenue is the literal string "0". -/
def zeroRevRow : RawRow := ⟨some "2024-04-01", none, none, none, some "0", none⟩

/-- A valid row whose Revenue does not parse as a number (NaN under cEnv). -/
def nanRevRow : RawRow := ⟨some "2024-04-01", none, none, none, some "abc", none⟩

/-- A row whose Revenue is the empty string. -/
def emptyRevRow : RawRow := ⟨some "2024-04-01", none, none, none, some "", none⟩

/-- A row with no Revenue field at all. -/
def noRevRow : RawRow := ⟨some "2024-04-01", none, none, none, none, none⟩

/-- The first aggregate normalize produces from rowsC6. -/
def aggC6 : AggregatedRow :=
  { Date := "2024-04-01", SalesCount := 1, Revenue := 100, Clients := ["A"]
    Month := "April", Year := "2024" }

/-- A date-only row whose date does not parse under nullEnv; exercises the
"Unknown" bucket. -/
def rowU : RawRow := ⟨some "x", none, none, some "A", some "1", none⟩

/-- The aggregate normalize nullEnv [rowU] produces. -/
def aggU : AggregatedRow :=
  { Date := "Unknown", SalesCount := 1, Revenue := 0, Clients := ["A"]
    Month := "Unknown", Year := "Unknown" }

/-- The per-aggregate consistency invariant between Date, Month and Year:
either the "Unknown" triple or the three dayjs formats of one well-formed
date. -/
def GoodAgg (a : AggregatedRow) : Prop :=
  (a.Date = "Unknown" ∧ a.Month = "Unknown" ∧ a.Year = "Unknown")
  ∨ ∃ d, WellFormedDate d ∧ a.Date = formatYMD d ∧ a.Month = monthName d.month
      ∧ a.Year = pad4 d.year

/-- C7: with mode = all and selectedMonth = "all" the filter pipeline is the
identity: it returns the input aggregate list unchanged, whatever the other
selections are. -/
theorem C7_all_filter_identity (env : JsEnv) (now : Int) (w : Option WeekRange)
    (year : String) (data : List AggregatedRow) :
    filterData env now ⟨Mode.all, "all", w, year⟩ data = data := by
  simp [filterData]

/-- C8: for a fixed fetched row set the revenue-by-person series of the
rendered view is the same for any two filter states (and any two clock
readings): it always equals the person totals computed from all valid rows,
ignoring the active time filter. -/
theorem C8_person_series_ignores_filter (env : JsEnv) (now1 now2 : Int)
    (rows : List RawRow) (fs1 fs2 : FilterState) :
    (renderView env now1 rows fs1).salesByPerson = (renderView env now2 rows fs2).salesByPerson
    ∧ (renderView env now1 rows fs1).salesByPerson = (normalize env rows).2 :=
  ⟨rfl, rfl⟩

/-- The week-branch predicate of the filter effect, written with dayjs NaN
comparison semantics, keeps a date exactly when it parses into the selected
range or fails to parse at all. -/
theorem weekPred_eq (env : JsEnv) (w : WeekRange) (s : String) :
    (!(jsIsBefore (dateTs env s) (some ((w.start : Int) * msPerDay))) &&
     !(jsIsAfter (dateTs env s) (some ((w.stop : Int) * msPerDay))))
    = (inWeekSpec env w s || (dateTs env s).isNone) := by
  cases hd : env.parseDate s <;>
    simp [dateTs, jsIsBefore, jsIsAfter, inWeekSpec, hd, msPerDay]
  simp only [← decide_not, ← Bool.decide_and, decide_eq_decide]
  omega

/-- The trailing-window branch of the filter effect computes exactly the
afterWindow predicate. -/
theorem trailingPred_eq (env : JsEnv) (now k : Int) (s : String) :
    jsIsAfter (dateTs env s) (some (now - k * msPerDay)) = afterWindow env now k s := by
  cases hd : env.parseDate s <;>
    simp [dateTs, jsIsAfter, afterWindow, hd]

/-- C3 (amended): in weekly mode with a month and a week selected, the filter
keeps the aggregates whose date parses into the week's inclusive range
together with every aggregate whose date fails to parse; with no week chosen
(or no month selected) it keeps the aggregates whose parsed date is strictly
after now minus 7 days, with no upper bound; the month filter is not applied
in weekly mode, so selecting a month and then weekly mode without picking a
week yields that trailing filter, not the whole selected month. -/
theorem C3_weekly_filter (env : JsEnv) (now : Int) (data : List AggregatedRow)
    (month : String) (w : WeekRange) (year : String) (hm : month ≠ "all") :
    filterData env now ⟨Mode.weekly, month, some w, year⟩ data
      = data.filter (fun item => inWeekSpec env w item.Date || (dateTs env item.Date).isNone)
    ∧ filterData env now ⟨Mode.weekly, month, none, year⟩ data
      = data.filter (fun item => afterWindow env now 7 item.Date)
    ∧ filterData env now ⟨Mode.weekly, "all", some w, year⟩ data
      = data.filter (fun item => afterWindow env now 7 item.Date) := by
  refine ⟨?_, ?_, ?_⟩
  · simp only [filterData, hm, ne_eq, not_false_eq_true, if_true, not_true_eq_false,
      and_false, if_false, reduceCtorEq]
    exact List.filter_congr (fun item _ => weekPred_eq env w item.Date)
  · simp only [filterData, ne_eq, not_true_eq_false, and_false, if_false, reduceCtorEq]
    exact List.filter_congr (fun item _ => trailingPred_eq env now 7 item.Date)
  · simp only [filterData, ne_eq, not_true_eq_false, and_false, if_false, ite_self,
      reduceCtorEq]
    exact List.filter_congr (fun item _ => trailingPred_eq env now 7 item.Date)

/-- C3 witness: the amended statement at a concrete instance. -/
theorem C3_weekly_filter_witness :
    filterData nullEnv 0 ⟨Mode.weekly, "April 2024", some ⟨100, 106⟩, "all"⟩ []
      = List.filter (fun item => inWeekSpec nullEnv ⟨100, 106⟩ item.Date
          || (dateTs nullEnv item.Date).isNone) []
    ∧ filterData nullEnv 0 ⟨Mode.weekly, "April 2024", none, "all"⟩ []
      = List.filter (fun item => afterWindow nullEnv 0 7 item.Date) []
    ∧ filterData nullEnv 0 ⟨Mode.weekly, "all", some ⟨100, 106⟩, "all"⟩ []
      = List.filter (fun item => afterWindow nullEnv 0 7 item.Date) [] :=
  C3_weekly_filter nullEnv 0 [] "April 2024" ⟨100, 106⟩ "all" (by decide)

/-- C3 counterexample: with month "April 2024" and a selected week, the
aggregate of the "Unknown" bucket is kept by the filter although its date
does not lie in the week's range, so the output is not exactly the
aggregates whose date lies in the selected week. -/
theorem C3_counterexample :
    filterData nullEnv 0 ⟨Mode.weekly, "April 2024", some ⟨100, 106⟩, "all"⟩ [unknownAgg]
        = [unknownAgg]
    ∧ List.filter (fun a => inWeekSpec nullEnv ⟨100, 106⟩ a.Date) [unknownAgg] = []
    ∧ filterData nullEnv 0 ⟨Mode.weekly, "April 2024", some ⟨100, 106⟩, "all"⟩ [unknownAgg]
        ≠ List.filter (fun a => inWeekSpec nullEnv ⟨100, 106⟩ a.Date) [unknownAgg] := by
  refine ⟨by decide, by decide, by decide⟩

/-- C4: rows lacking a date or a revenue value are discarded before
aggregation (normalizing is unchanged by pre-filtering to the valid rows); a
valid row whose revenue does not parse as a number still contributes one
sale and zero revenue instead of failing; and a row with no revenue at all
produces nothing — it is not counted as a zero-revenue sale. -/
theorem C4_discard_and_coerce (env : JsEnv) (rows : List RawRow) (r r2 : RawRow)
    (s : String) (h1 : validRow r = true) (h2 : r.Revenue = some s)
    (h3 : env.parseNum s = none) (h4 : r2.Revenue = none) :
    normalize env rows = normalize env (rows.filter validRow)
    ∧ ((normalize env [r]).1.map (fun a => a.SalesCount)).sum = 1
    ∧ ((normalize env [r]).1.map (fun a => a.Revenue)).sum = 0
    ∧ normalize env [r2] = ([], []) := by
  have hr2 : validRow r2 = false := by simp [validRow, truthy, h4]
  refine ⟨?_, ?_, ?_, ?_⟩
  · simp [normalize, List.filter_filter]
  · simp [normalize, h1, applyRow, updateAgg, numOr0, h2, h3,
      List.insertionSort, List.orderedInsert]
  · simp [normalize, h1, applyRow, updateAgg, numOr0, h2, h3,
      List.insertionSort, List.orderedInsert]
  · simp [normalize, hr2]

/-- C4 witness: the statement at a concrete environment and rows. -/
theorem C4_discard_and_coerce_witness :
    normalize cEnv [nanRevRow, noRevRow] = normalize cEnv ([nanRevRow, noRevRow].filter validRow)
    ∧ ((normalize cEnv [nanRevRow]).1.map (fun a => a.SalesCount)).sum = 1
    ∧ ((normalize cEnv [nanRevRow]).1.map (fun a => a.Revenue)).sum = 0
    ∧ normalize cEnv [noRevRow] = ([], []) :=
  C4_discard_and_coerce cEnv [nanRevRow, noRevRow] nanRevRow noRevRow "abc"
    (by decide) (by decide) (by decide) (by decide)

/-- C9: a raw record is valid exactly when both Date and Revenue are present
non-empty strings; a row whose Revenue is the string "0" is kept as one sale
of zero revenue; and a row whose Revenue is the empty string produces
nothing, exactly like a row with no Revenue field. -/
theorem C9_truthiness_validity (r r2 : RawRow) (env2 : JsEnv) (h : r2.Revenue = some "") :
    (validRow r = true ↔
      (∃ s, r.Date = some s ∧ s ≠ "") ∧ (∃ t, r.Revenue = some t ∧ t ≠ ""))
    ∧ ((normalize cEnv [zeroRevRow]).1.map (fun a => a.SalesCount)).sum = 1
    ∧ ((normalize cEnv [zeroRevRow]).1.map (fun a => a.Revenue)).sum = 0
    ∧ normalize env2 [r2] = ([], [])
    ∧ normalize env2 [{ r2 with Revenue := none }] = ([], []) := by
  have hr2 : validRow r2 = false := by simp [validRow, truthy, h]
  have hr2' : validRow { r2 with Revenue := none } = false := by simp [validRow, truthy]
  have hz : cEnv.parseNum "0" = some 0 := rfl
  refine ⟨?_,
    by simp [normalize, validRow, truthy, zeroRevRow, applyRow, updateAgg,
         List.insertionSort, List.orderedInsert],
    by simp [normalize, validRow, truthy, zeroRevRow, applyRow, updateAgg, numOr0, hz,
         List.insertionSort, List.orderedInsert],
    ?_, ?_⟩
  · cases hd : r.Date <;> cases hr : r.Revenue <;> simp [validRow, truthy, hd, hr]
  · simp [normalize, hr2]
  · simp [normalize, hr2']

/-- C9 witness: the statement at concrete rows and environment. -/
theorem C9_truthiness_validity_witness :
    (validRow zeroRevRow = true ↔
      (∃ s, zeroRevRow.Date = some s ∧ s ≠ "")
        ∧ (∃ t, zeroRevRow.Revenue = some t ∧ t ≠ ""))
    ∧ ((normalize cEnv [zeroRevRow]).1.map (fun a => a.SalesCount)).sum = 1
    ∧ ((normalize cEnv [zeroRevRow]).1.map (fun a => a.Revenue)).sum = 0
    ∧ normalize nullEnv [emptyRevRow] = ([], [])
    ∧ normalize nullEnv [{ emptyRevRow with Revenue := none }] = ([], []) :=
  C9_truthiness_validity zeroRevRow emptyRevRow nullEnv (by decide)

theorem updateAgg_Date (a : AggregatedRow) (rev : Rat) (c : Option String) :
    (updateAgg a rev c).Date = a.Date := rfl

theorem updateAgg_SalesCount (a : AggregatedRow) (rev : Rat) (c : Option String) :
    (updateAgg a rev c).SalesCount = a.SalesCount + 1 := rfl

theorem updateAgg_Revenue (a : AggregatedRow) (rev : Rat) (c : Option String) :
    (updateAgg a rev c).Revenue = a.Revenue + rev := rfl

/-- Updating the bucket of one key leaves the list of keys unchanged. -/
theorem keys_update (m : List AggregatedRow) (key : String) (rev : Rat) (c : Option String) :
    (m.map (fun a => if a.Date == key then updateAgg a rev c else a)).map (fun a => a.Date)
      = m.map (fun a => a.Date) := by
  induction m with
  | nil => rfl
  | cons a t ih =>
    simp only [List.map_cons, ih, List.cons.injEq, and_true]
    split <;> rfl

/-- With pairwise-distinct keys, updating the bucket of a key that is present
adds exactly one to the total sales count. -/
theorem sum_update_count (m : List AggregatedRow) (key : String) (rev : Rat)
    (c : Option String) (hm : (m.map (fun a => a.Date)).Nodup)
    (hmem : m.any (fun a => a.Date == key) = true) :
    ((m.map (fun a => if a.Date == key then updateAgg a rev c else a)).map
        (fun a => a.SalesCount)).sum
      = (m.map (fun a => a.SalesCount)).sum + 1 := by
  induction m with
  | nil => simp at hmem
  | cons a t ih =>
    simp only [List.map_cons, List.nodup_cons] at hm
    by_cases ha : (a.Date == key) = true
    · have hkey : a.Date = key := by simpa using ha
      have htail : ∀ b ∈ t, (b.Date == key) = false := by
        intro b hb
        simp only [beq_eq_false_iff_ne, ne_eq]
        intro hbk
        exact hm.1 (hkey ▸ hbk ▸ List.mem_map_of_mem (fun a => a.Date) hb)
      have ht : t.map (fun x => if x.Date == key then updateAgg x rev c else x) = t := by
        have h0 : t.map (fun x => if x.Date == key then updateAgg x rev c else x) = t.map id :=
          List.map_congr_left (fun b hb => by simp [htail b hb])
        simpa using h0
      simp only [List.map_cons, List.sum_cons, if_pos ha, ht, updateAgg_SalesCount]
      omega
    · have hmem' : t.any (fun x => x.Date == key) = true := by
        simpa [ha] using hmem
      simp only [List.map_cons, List.sum_cons, if_neg ha, ih hm.2 hmem']
      omega

/-- With pairwise-distinct keys, updating the bucket of a key that is present
adds exactly the coerced row revenue to the total revenue. -/
theorem sum_update_rev (m : List AggregatedRow) (key : String) (rev : Rat)
    (c : Option String) (hm : (m.map (fun a => a.Date)).Nodup)
    (hmem : m.any (fun a => a.Date == key) = true) :
    ((m.map (fun a => if a.Date == key then updateAgg a rev c else a)).map
        (fun a => a.Revenue)).sum
      = (m.map (fun a => a.Revenue)).sum + rev := by
  induction m with
  | nil => simp at hmem
  | cons a t ih =>
    simp only [List.map_cons, List.nodup_cons] at hm
    by_cases ha : (a.Date == key) = true
    · have hkey : a.Date = key := by simpa using ha
      have htail : ∀ b ∈ t, (b.Date == key) = false := by
        intro b hb
        simp only [beq_eq_false_iff_ne, ne_eq]
        intro hbk
        exact hm.1 (hkey ▸ hbk ▸ List.mem_map_of_mem (fun a => a.Date) hb)
      have ht : t.map (fun x => if x.Date == key then updateAgg x rev c else x) = t := by
        have h0 : t.map (fun x => if x.Date == key then updateAgg x rev c else x) = t.map id :=
          List.map_congr_left (fun b hb => by simp [htail b hb])
        simpa using h0
      simp only [List.map_cons, List.sum_cons, if_pos ha, ht, updateAgg_Revenue]
      ring
    · have hmem' : t.any (fun x => x.Date == key) = true := by
        simpa [ha] using hmem
      simp only [List.map_cons, List.sum_cons, if_neg ha, ih hm.2 hmem']
      ring

/-- Processing one row preserves distinctness of the date keys and adds
exactly one sale and the row's coerced revenue to the totals. -/
theorem applyRow_invariants (env : JsEnv) (r : RawRow) (m : List AggregatedRow)
    (hm : (m.map (fun a => a.Date)).Nodup) :
    ((applyRow env r m).map (fun a => a.Date)).Nodup
    ∧ ((applyRow env r m).map (fun a => a.SalesCount)).sum
        = (m.map (fun a => a.SalesCount)).sum + 1
    ∧ ((applyRow env r m).map (fun a => a.Revenue)).sum
        = (m.map (fun a => a.Revenue)).sum + numOr0 env (r.Revenue.getD "") := by
  simp only [applyRow]
  by_cases hany : (m.any (fun a => a.Date == (bucketKey env (r.Date.getD "")).1)) = true
  · simp only [if_pos hany]
    refine ⟨?_, sum_update_count m _ _ _ hm hany, sum_update_rev m _ _ _ hm hany⟩
    rw [keys_update]
    exact hm
  · simp only [if_neg hany]
    have hnotin : (bucketKey env (r.Date.getD "")).1 ∉ m.map (fun a => a.Date) := by
      intro hin
      obtain ⟨b, hb, hbd⟩ := List.mem_map.mp hin
      refine hany (List.any_eq_true.mpr ⟨b, hb, ?_⟩)
      simp [hbd]
    refine ⟨?_, ?_, ?_⟩
    · simp only [List.map_append, List.map_cons, List.map_nil, updateAgg_Date]
      simp [List.nodup_append, hm, hnotin]
    · simp [updateAgg_SalesCount]
    · simp [updateAgg_Revenue]

/-- Folding a row list into the daily map preserves key distinctness and adds
one sale per row and the rows' total coerced revenue. -/
theorem foldRows_invariants (env : JsEnv) (rows : List RawRow) :
    ∀ (m : List AggregatedRow), (m.map (fun a => a.Date)).Nodup →
    ((rows.foldl (fun acc r => applyRow env r acc) m).map (fun a => a.Date)).Nodup
    ∧ ((rows.foldl (fun acc r => applyRow env r acc) m).map (fun a => a.SalesCount)).sum
        = (m.map (fun a => a.SalesCount)).sum + rows.length
    ∧ ((rows.foldl (fun acc r => applyRow env r acc) m).map (fun a => a.Revenue)).sum
        = (m.map (fun a => a.Revenue)).sum
            + (rows.map (fun r => numOr0 env (r.Revenue.getD ""))).sum := by
  induction rows with
  | nil =>
    intro m hm
    simp only [List.foldl_nil, List.map_nil, List.sum_nil, List.length_nil]
    exact ⟨hm, rfl, by simp⟩
  | cons r rows ih =>
    intro m hm
    obtain ⟨h1, h2, h3⟩ := applyRow_invariants env r m hm
    obtain ⟨ih1, ih2, ih3⟩ := ih (applyRow env r m) h1
    refine ⟨by simpa using ih1, ?_, ?_⟩
    · simp only [List.foldl_cons, List.length_cons]
      rw [ih2, h2]
      omega
    · simp only [List.foldl_cons, List.map_cons, List.sum_cons]
      rw [ih3, h3]
      ring

/-- C1: for every input row set, the sum of SalesCount over the normalized
daily aggregates equals the number of valid rows, and the sum of Revenue
equals the sum of the coerced revenue values of the valid rows. -/
theorem C1_conservation (env : JsEnv) (rows : List RawRow) :
    ((normalize env rows).1.map (fun a => a.SalesCount)).sum
      = (rows.filter validRow).length
    ∧ ((normalize env rows).1.map (fun a => a.Revenue)).sum
        = ((rows.filter validRow).map (fun r => numOr0 env (r.Revenue.getD ""))).sum := by
  obtain ⟨hn, hc, hr⟩ := foldRows_invariants env (rows.filter validRow) [] (by simp)
  have hperm : List.Perm (normalize env rows).1
      ((rows.filter validRow).foldl (fun acc r => applyRow env r acc) []) := by
    simpa [normalize] using
      List.perm_insertionSort (fun a b => strLe a.Date b.Date = true)
        ((rows.filter validRow).foldl (fun acc r => applyRow env r acc) [])
  constructor
  · rw [(hperm.map (fun a => a.SalesCount)).sum_eq, hc]
    simp
  · rw [(hperm.map (fun a => a.Revenue)).sum_eq, hr]
    simp

theorem updateAgg_Month (a : AggregatedRow) (rev : Rat) (c : Option String) :
    (updateAgg a rev c).Month = a.Month := rfl

theorem updateAgg_Year (a : AggregatedRow) (rev : Rat) (c : Option String) :
    (updateAgg a rev c).Year = a.Year := rfl

/-- The guarded client append keeps the client list duplicate-free. -/
theorem updateAgg_clients_nodup (a : AggregatedRow) (rev : Rat) (c : Option String)
    (h : a.Clients.Nodup) : (updateAgg a rev c).Clients.Nodup := by
  unfold updateAgg
  cases c with
  | none => exact h
  | some c =>
    by_cases h1 : c = ""
    · simpa [h1] using h
    · by_cases h2 : c ∈ a.Clients
      · simpa [h1, h2] using h
      · simp [h1, h2, List.nodup_append, h]

/-- Processing one row keeps every bucket's client list duplicate-free. -/
theorem applyRow_clients_nodup (env : JsEnv) (r : RawRow) (m : List AggregatedRow)
    (hm : ∀ a ∈ m, a.Clients.Nodup) :
    ∀ a ∈ applyRow env r m, a.Clients.Nodup := by
  intro a ha
  simp only [applyRow] at ha
  by_cases hany : (m.any (fun a => a.Date == (bucketKey env (r.Date.getD "")).1)) = true
  · rw [if_pos hany] at ha
    obtain ⟨b, hb, rfl⟩ := List.mem_map.mp ha
    split
    · exact updateAgg_clients_nodup _ _ _ (hm b hb)
    · exact hm b hb
  · rw [if_neg hany] at ha
    rcases List.mem_append.mp ha with h | h
    · exact hm a h
    · simp only [List.mem_cons, List.not_mem_nil, or_false] at h
      subst h
      exact updateAgg_clients_nodup _ _ _ (by simp)

/-- Folding rows into the daily map keeps every client list duplicate-free. -/
theorem foldRows_clients_nodup (env : JsEnv) (rows : List RawRow) :
    ∀ (m : List AggregatedRow), (∀ a ∈ m, a.Clients.Nodup) →
    ∀ a ∈ rows.foldl (fun acc r => applyRow env r acc) m, a.Clients.Nodup := by
  induction rows with
  | nil => intro m hm; simpa using hm
  | cons r rows ih =>
    intro m hm
    simp only [List.foldl_cons]
    exact ih _ (applyRow_clients_nodup env r m hm)

/-- C6: every aggregate's client list is duplicate-free, even when the same
client appears in several valid rows of the same date; and deduplication is
only per date — on the rowsC6 input the same client "A" appears under two
distinct dates. -/
theorem C6_client_dedup (env : JsEnv) (rows : List RawRow) (a : AggregatedRow)
    (ha : a ∈ (normalize env rows).1) :
    a.Clients.Nodup
    ∧ (normalize cEnv rowsC6).1.map (fun x => x.Clients) = [["A"], ["A"]]
    ∧ ((normalize cEnv rowsC6).1.map (fun x => x.Date)).Nodup := by
  refine ⟨?_, by decide, by decide⟩
  have hperm : List.Perm (normalize env rows).1
      ((rows.filter validRow).foldl (fun acc r => applyRow env r acc) []) := by
    simpa [normalize] using
      List.perm_insertionSort (fun a b => strLe a.Date b.Date = true)
        ((rows.filter validRow).foldl (fun acc r => applyRow env r acc) [])
  exact foldRows_clients_nodup env (rows.filter validRow) [] (by simp) a (hperm.subset ha)

/-- C6 witness: the statement at a concrete aggregate of a concrete run. -/
theorem C6_client_dedup_witness :
    aggU.Clients.Nodup
    ∧ (normalize cEnv rowsC6).1.map (fun x => x.Clients) = [["A"], ["A"]]
    ∧ ((normalize cEnv rowsC6).1.map (fun x => x.Date)).Nodup :=
  C6_client_dedup nullEnv [rowU] aggU (by
    have h : (normalize nullEnv [rowU]).1 = [aggU] := by
      simp [normalize, rowU, validRow, truthy, applyRow, updateAgg, numOr0, nullEnv,
        bucketKey, aggU, List.insertionSort, List.orderedInsert]
    rw [h]
    exact List.mem_singleton.mpr rfl)

/-- Processing one row preserves the Date/Month/Year consistency invariant:
updates leave the three fields untouched, and a fresh bucket gets all three
from the same parse of the row's date string. -/
theorem applyRow_good (env : JsEnv) (r : RawRow) (m : List AggregatedRow)
    (henv : ∀ s d, env.parseDate s = some d → WellFormedDate d)
    (hm : ∀ a ∈ m, GoodAgg a) :
    ∀ a ∈ applyRow env r m, GoodAgg a := by
  intro a ha
  simp only [applyRow] at ha
  by_cases hany : (m.any (fun a => a.Date == (bucketKey env (r.Date.getD "")).1)) = true
  · rw [if_pos hany] at ha
    obtain ⟨b, hb, rfl⟩ := List.mem_map.mp ha
    have hgb := hm b hb
    split
    · unfold GoodAgg at hgb ⊢
      simpa only [updateAgg_Date, updateAgg_Month, updateAgg_Year] using hgb
    · exact hgb
  · rw [if_neg hany] at ha
    rcases List.mem_append.mp ha with h | h
    · exact hm a h
    · simp only [List.mem_cons, List.not_mem_nil, or_false] at h
      subst h
      unfold GoodAgg
      simp only [updateAgg_Date, updateAgg_Month, updateAgg_Year]
      cases hk : env.parseDate (r.Date.getD "") with
      | none => left; simp [bucketKey, hk]
      | some d =>
        right
        exact ⟨d, henv _ _ hk, by simp [bucketKey, hk], by simp [bucketKey, hk],
          by simp [bucketKey, hk]⟩

/-- Folding rows into the daily map preserves the Date/Month/Year consistency
invariant. -/
theorem foldRows_good (env : JsEnv) (rows : List RawRow)
    (henv : ∀ s d, env.parseDate s = some d → WellFormedDate d) :
    ∀ (m : List AggregatedRow), (∀ a ∈ m, GoodAgg a) →
    ∀ a ∈ rows.foldl (fun acc r => applyRow env r acc) m, GoodAgg a := by
  induction rows with
  | nil => intro m hm; simpa using hm
  | cons r rows ih =>
    intro m hm
    simp only [List.foldl_cons]
    exact ih _ (applyRow_good env r m henv hm)

/-- C10: whenever dayjs only produces well-formed dates, every normalized
aggregate has Month and Year consistent with its Date: either the "Unknown"
triple, or the YYYY-MM-DD, full-month-name and 4-digit-year formats of one
well-formed date — independent of how many rows fed the bucket and in what
order. -/
theorem C10_month_year_consistent (env : JsEnv) (rows : List RawRow) (a : AggregatedRow)
    (henv : ∀ s d, env.parseDate s = some d → WellFormedDate d)
    (ha : a ∈ (normalize env rows).1) :
    (a.Date = "Unknown" ∧ a.Month = "Unknown" ∧ a.Year = "Unknown")
    ∨ ∃ d, WellFormedDate d ∧ a.Date = formatYMD d ∧ a.Month = monthName d.month
        ∧ a.Year = pad4 d.year := by
  have hperm : List.Perm (normalize env rows).1
      ((rows.filter validRow).foldl (fun acc r => applyRow env r acc) []) := by
    simpa [normalize] using
      List.perm_insertionSort (fun a b => strLe a.Date b.Date = true)
        ((rows.filter validRow).foldl (fun acc r => applyRow env r acc) [])
  exact foldRows_good env (rows.filter validRow) henv [] (by simp) a (hperm.subset ha)

/-- C10 witness: the statement at a concrete aggregate of a concrete run. -/
theorem C10_month_year_consistent_witness :
    (aggU.Date = "Unknown" ∧ aggU.Month = "Unknown" ∧ aggU.Year = "Unknown")
    ∨ ∃ d, WellFormedDate d ∧ aggU.Date = formatYMD d ∧ aggU.Month = monthName d.month
        ∧ aggU.Year = pad4 d.year :=
  C10_month_year_consistent nullEnv [rowU] aggU
    (by intro s d h; simp [nullEnv] at h)
    (by
      have h : (normalize nullEnv [rowU]).1 = [aggU] := by
        simp [normalize, rowU, validRow, truthy, applyRow, updateAgg, numOr0, nullEnv,
          bucketKey, aggU, List.insertionSort, List.orderedInsert]
      rw [h]
      exact List.mem_singleton.mpr rfl)

theorem weeksGo_nil (fuel e c : Nat) (h : ¬ c ≤ e) : weeksGo fuel e c = [] := by
  cases fuel <;> simp [weeksGo, h]

theorem WeeksChain_single (c e : Nat) (hc : c ≤ e) : WeeksChain [⟨c, e⟩] c e := by
  unfold WeeksChain
  refine ⟨by simp, ?_, by simp, ?_, rfl, rfl, ?_⟩
  · intro r hr
    simp only [List.mem_singleton] at hr
    subst hr
    exact ⟨le_refl _, hc, le_refl _⟩
  · intro d
    simp
  · intro i hi
    simp at hi

theorem WeeksChain_cons (c w e : Nat) (l : List WeekRange) (hcw : c ≤ w) (hwe : w < e)
    (hwk : w = endOfWeek c) (hch : WeeksChain l (w + 1) e) :
    WeeksChain (⟨c, w⟩ :: l) c e := by
  obtain ⟨hne, hb, hpw, hcov, hhead, hlast, hidx⟩ := hch
  refine ⟨by simp, ?_, ?_, ?_, rfl, ?_, ?_⟩
  · intro r hr
    rcases List.mem_cons.mp hr with rfl | hr
    · exact ⟨le_refl c, hcw, le_of_lt hwe⟩
    · obtain ⟨h1, h2, h3⟩ := hb r hr
      exact ⟨by omega, h2, h3⟩
  · refine List.pairwise_cons.mpr ⟨?_, hpw⟩
    intro r hr
    have h1 := (hb r hr).1
    simp only []
    omega
  · intro d
    constructor
    · rintro ⟨h1, h2⟩
      by_cases hd : d ≤ w
      · exact ⟨⟨c, w⟩, List.mem_cons_self _ _, h1, hd⟩
      · obtain ⟨r, hr, hr2⟩ := (hcov d).mp ⟨by omega, h2⟩
        exact ⟨r, List.mem_cons_of_mem _ hr, hr2⟩
    · rintro ⟨r, hr, hr1, hr2⟩
      rcases List.mem_cons.mp hr with rfl | hr
      · simp only [] at hr1 hr2
        omega
      · have h1 := (hb r hr).1
        have h3 := (hb r hr).2.2
        constructor <;> omega
  · cases l with
    | nil => exact absurd rfl hne
    | cons x xs => simpa [List.getLastD_cons] using hlast
  · intro i hi
    cases i with
    | zero =>
      refine ⟨by simpa using hwk, ?_⟩
      cases l with
      | nil => exact absurd rfl hne
      | cons x xs => simpa using hhead
    | succ j =>
      have hj : j + 1 < l.length := by simpa using hi
      have h := hidx j hj
      simpa using h

theorem weeksGo_spec (e : Nat) :
    ∀ (fuel c : Nat), e + 1 - c ≤ fuel → c ≤ e → WeeksChain (weeksGo fuel e c) c e := by
  intro fuel
  induction fuel with
  | zero => intro c hf hc; omega
  | succ fuel ih =>
    intro c hf hc
    simp only [weeksGo, if_pos hc]
    by_cases hcl : e < endOfWeek c
    · simp only [if_pos hcl]
      rw [weeksGo_nil fuel e (e + 1) (by omega)]
      exact WeeksChain_single c e hc
    · simp only [if_neg hcl]
      have hcw : c ≤ endOfWeek c := by unfold endOfWeek; omega
      have hwle : endOfWeek c ≤ e := Nat.le_of_not_lt hcl
      by_cases hwe : endOfWeek c = e
      · rw [hwe, weeksGo_nil fuel e (e + 1) (by omega)]
        exact WeeksChain_single c e hc
      · have hwlt : endOfWeek c < e := Nat.lt_of_le_of_ne hwle hwe
        exact WeeksChain_cons c (endOfWeek c) e _ hcw hwlt rfl
          (ih (endOfWeek c + 1) (by omega) (by omega))

/-- C2: for every month-year string that parses, the week generator produces
at least one range; the ranges are pairwise disjoint and ordered; every
range stays inside the month; and their union covers exactly the inclusive
interval from the first to the last day of the month — no gaps, no
overlaps. -/
theorem C2_week_coverage (s : String) (m y : Nat) (h : parseMonthYear s = some (m, y)) :
    getWeeksOfMonth s ≠ []
    ∧ (∀ r ∈ getWeeksOfMonth s,
        dayNumber ⟨y, m, 1⟩ ≤ r.start ∧ r.start ≤ r.stop
          ∧ r.stop ≤ dayNumber ⟨y, m, 1⟩ + (daysInMonth y m - 1))
    ∧ List.Pairwise (fun r1 r2 => r1.stop < r2.start) (getWeeksOfMonth s)
    ∧ (∀ d, (dayNumber ⟨y, m, 1⟩ ≤ d ∧ d ≤ dayNumber ⟨y, m, 1⟩ + (daysInMonth y m - 1))
        ↔ ∃ r ∈ getWeeksOfMonth s, r.start ≤ d ∧ d ≤ r.stop) := by
  have hg : getWeeksOfMonth s
      = weeksGo (dayNumber ⟨y, m, 1⟩ + (daysInMonth y m - 1) + 1 - dayNumber ⟨y, m, 1⟩)
          (dayNumber ⟨y, m, 1⟩ + (daysInMonth y m - 1)) (dayNumber ⟨y, m, 1⟩) := by
    simp [getWeeksOfMonth, h]
  obtain ⟨h1, h2, h3, h4, _, _, _⟩ :=
    weeksGo_spec (dayNumber ⟨y, m, 1⟩ + (daysInMonth y m - 1))
      (dayNumber ⟨y, m, 1⟩ + (daysInMonth y m - 1) + 1 - dayNumber ⟨y, m, 1⟩)
      (dayNumber ⟨y, m, 1⟩) (by omega) (by omega)
  rw [hg]
  exact ⟨h1, h2, h3, h4⟩

/-- C2 witness: the coverage statement for April 2024. -/
theorem C2_week_coverage_witness :
    getWeeksOfMonth "April 2024" ≠ []
    ∧ (∀ r ∈ getWeeksOfMonth "April 2024",
        dayNumber ⟨2024, 4, 1⟩ ≤ r.start ∧ r.start ≤ r.stop
          ∧ r.stop ≤ dayNumber ⟨2024, 4, 1⟩ + (daysInMonth 2024 4 - 1))
    ∧ List.Pairwise (fun r1 r2 => r1.stop < r2.start) (getWeeksOfMonth "April 2024")
    ∧ (∀ d, (dayNumber ⟨2024, 4, 1⟩ ≤ d
          ∧ d ≤ dayNumber ⟨2024, 4, 1⟩ + (daysInMonth 2024 4 - 1))
        ↔ ∃ r ∈ getWeeksOfMonth "April 2024", r.start ≤ d ∧ d ≤ r.stop) :=
  C2_week_coverage "April 2024" 4 2024 (by decide)

/-- C5 (amended): the first range starts on the first day of the month and
the last range's end is clamped to the last day; but both the first range
and the last range may span fewer than 7 days — the first is cut at the
first Saturday, the last at the end of the month — while every range other
than the first and the last spans exactly 7 days. -/
theorem C5_week_lengths (s : String) (m y : Nat) (h : parseMonthYear s = some (m, y)) :
    getWeeksOfMonth s ≠ []
    ∧ ((getWeeksOfMonth s).headD dfltRange).start = dayNumber ⟨y, m, 1⟩
    ∧ ((getWeeksOfMonth s).getLastD dfltRange).stop
        = dayNumber ⟨y, m, 1⟩ + (daysInMonth y m - 1)
    ∧ (∀ i, i + 2 < (getWeeksOfMonth s).length →
        ((getWeeksOfMonth s).getD (i + 1) dfltRange).stop + 1
          = ((getWeeksOfMonth s).getD (i + 1) dfltRange).start + 7) := by
  have hg : getWeeksOfMonth s
      = weeksGo (dayNumber ⟨y, m, 1⟩ + (daysInMonth y m - 1) + 1 - dayNumber ⟨y, m, 1⟩)
          (dayNumber ⟨y, m, 1⟩ + (daysInMonth y m - 1)) (dayNumber ⟨y, m, 1⟩) := by
    simp [getWeeksOfMonth, h]
  obtain ⟨h1, h2, h3, h4, h5, h6, h7⟩ :=
    weeksGo_spec (dayNumber ⟨y, m, 1⟩ + (daysInMonth y m - 1))
      (dayNumber ⟨y, m, 1⟩ + (daysInMonth y m - 1) + 1 - dayNumber ⟨y, m, 1⟩)
      (dayNumber ⟨y, m, 1⟩) (by omega) (by omega)
  rw [hg]
  refine ⟨h1, h5, h6, ?_⟩
  intro i hi
  obtain ⟨hstop0, hstart1⟩ := h7 i (by omega)
  obtain ⟨hstop1, _⟩ := h7 (i + 1) (by omega)
  rw [hstop1, hstart1, hstop0]
  unfold endOfWeek dayOfWeek
  omega

/-- C5 witness: the amended statement for April 2024. -/
theorem C5_week_lengths_witness :
    getWeeksOfMonth "April 2024" ≠ []
    ∧ ((getWeeksOfMonth "April 2024").headD dfltRange).start = dayNumber ⟨2024, 4, 1⟩
    ∧ ((getWeeksOfMonth "April 2024").getLastD dfltRange).stop
        = dayNumber ⟨2024, 4, 1⟩ + (daysInMonth 2024 4 - 1)
    ∧ (∀ i, i + 2 < (getWeeksOfMonth "April 2024").length →
        ((getWeeksOfMonth "April 2024").getD (i + 1) dfltRange).stop + 1
          = ((getWeeksOfMonth "April 2024").getD (i + 1) dfltRange).start + 7) :=
  C5_week_lengths "April 2024" 4 2024 (by decide)

/-- C5 counterexample: for April 2024 (whose first day is a Monday) the
generator produces five ranges and the first — a non-final range — spans
only six days, so it is not the case that every non-final range spans
exactly 7 days. -/
theorem C5_counterexample :
    (getWeeksOfMonth "April 2024").length = 5
    ∧ ((getWeeksOfMonth "April 2024").getD 0 dfltRange).stop + 1
        = ((getWeeksOfMonth "April 2024").getD 0 dfltRange).start + 6
    ∧ ¬ (((getWeeksOfMonth "April 2024").getD 0 dfltRange).stop + 1
        = ((getWeeksOfMonth "April 2024").getD 0 dfltRange).start + 7) := by
  refine ⟨by decide, by decide, by decide⟩

end Dashboard
